import Mathlib

/-
  Verification of the diamond-tile background animation component of the
  38south repository.  The component exists in two drafts:
    * src/unnamed/part_000 : Map-based highlights, theta = 3*pi/4, grid
      translated to the viewport center;
    * src/unnamed/part_001 : Set-based highlights, theta = pi/4, grid
      centered on the lattice origin (no translation).
  JavaScript numbers are modelled by the rationals where the code only
  adds, multiplies, compares and takes `%` and `Math.floor`, and by the
  reals where `Math.cos`, `Math.sin` and `Math.sqrt` occur.  Injected
  random streams (`rand : Nat -> Rat`, values meant to lie in [0,1))
  stand for the successive results of `Math.random()`.
-/

namespace DBG

/-- Truncation toward zero, as JavaScript coerces a number to an integer
quotient inside the `%` operator. -/
def jsTrunc (q : ℚ) : ℤ := if 0 ≤ q then ⌊q⌋ else -⌊-q⌋

/-- The JavaScript remainder operator `x % m` on finite numbers: the sign
follows the dividend. -/
def jsMod (x m : ℚ) : ℚ := x - m * jsTrunc (x / m)

/-- For nonnegative dividend and positive modulus, `jsMod` is the floored
remainder, i.e. the fractional part of `x / m` scaled by `m`. -/
lemma jsMod_eq_fract (x m : ℚ) (hx : 0 ≤ x) (hm : 0 < m) :
    jsMod x m = m * Int.fract (x / m) := by
  have hq : 0 ≤ x / m := div_nonneg hx hm.le
  have hm0 : m ≠ 0 := ne_of_gt hm
  unfold jsMod jsTrunc
  rw [if_pos hq, Int.fract]
  field_simp

lemma jsMod_nonneg (x m : ℚ) (hx : 0 ≤ x) (hm : 0 < m) : 0 ≤ jsMod x m := by
  rw [jsMod_eq_fract x m hx hm]
  exact mul_nonneg hm.le (Int.fract_nonneg _)

lemma jsMod_lt (x m : ℚ) (hx : 0 ≤ x) (hm : 0 < m) : jsMod x m < m := by
  rw [jsMod_eq_fract x m hx hm]
  calc m * Int.fract (x / m) < m * 1 := by
        exact mul_lt_mul_of_pos_left (Int.fract_lt_one _) hm
    _ = m := mul_one m

lemma jsMod_eq_self (x m : ℚ) (hx : 0 ≤ x) (hxm : x < m) : jsMod x m = x := by
  have hm : 0 < m := lt_of_le_of_lt hx hxm
  rw [jsMod_eq_fract x m hx hm, Int.fract_eq_self.mpr
    ⟨div_nonneg hx hm.le, by rw [div_lt_one hm]; exact hxm⟩]
  field_simp

/-- Compounding: reducing modulo `m` at every step agrees with reducing the
raw accumulated sum once. -/
lemma jsMod_add_jsMod (a b m : ℚ) (ha : 0 ≤ a) (hb : 0 ≤ b) (hm : 0 < m) :
    jsMod (jsMod a m + b) m = jsMod (a + b) m := by
  have h1 : 0 ≤ jsMod a m := jsMod_nonneg a m ha hm
  have h2 : 0 ≤ jsMod a m + b := add_nonneg h1 hb
  have h3 : 0 ≤ a + b := add_nonneg ha hb
  rw [jsMod_eq_fract _ _ h2 hm, jsMod_eq_fract _ _ h3 hm,
    jsMod_eq_fract _ _ ha hm]
  have hm0 : m ≠ 0 := ne_of_gt hm
  have : (m * Int.fract (a / m) + b) / m = Int.fract (a / m) + b / m := by
    field_simp
    ring
  rw [this]
  have : Int.fract (a / m) + b / m = a / m + b / m - (⌊a / m⌋ : ℚ) := by
    rw [Int.fract]; ring
  rw [this, Int.fract_sub_int, add_div]

/- ### Animation clock (part_000 line 197 and 215-216, part_001 line 205 and
223-224; the two drafts share this code verbatim). -/

/-- Per-frame time delta: `Math.min(64, now - last) / 1000` (milliseconds
clamped, then converted to seconds). -/
def clampDt (gapMs : ℚ) : ℚ := min 64 gapMs / 1000

/-- One execution of `off = (off + v * dt) % spacing`. -/
def stepOffset (off v dt spacing : ℚ) : ℚ := jsMod (off + v * dt) spacing

/-- Scroll offset after a run of uncapped frames whose wall-clock gaps (in
milliseconds) are given by `gaps`, starting from offset `0`. -/
def offsetAfter (speed spacing : ℚ) (gaps : List ℚ) : ℚ :=
  gaps.foldl (fun o g => stepOffset o speed (clampDt g) spacing) 0

lemma stepOffset_mem (off v dt spacing : ℚ) (hoff : 0 ≤ off) (hv : 0 ≤ v)
    (hdt : 0 ≤ dt) (hsp : 0 < spacing) :
    0 ≤ stepOffset off v dt spacing ∧ stepOffset off v dt spacing < spacing := by
  have h : 0 ≤ off + v * dt := add_nonneg hoff (mul_nonneg hv hdt)
  exact ⟨jsMod_nonneg _ _ h hsp, jsMod_lt _ _ h hsp⟩

lemma offsetFold_eq (speed spacing : ℚ) (hv : 0 ≤ speed) (hsp : 0 < spacing) :
    ∀ (gaps : List ℚ) (o : ℚ), 0 ≤ o → o < spacing →
      (∀ g ∈ gaps, 0 ≤ g ∧ g ≤ 64) →
      gaps.foldl (fun o g => stepOffset o speed (clampDt g) spacing) o
        = jsMod (o + speed * (gaps.sum / 1000)) spacing
  | [], o, ho0, ho1, _ => by
      simp [jsMod_eq_self o spacing ho0 ho1]
  | g :: gs, o, ho0, ho1, hg => by
      have hg0 : 0 ≤ g := (hg g (List.mem_cons_self g gs)).1
      have hg64 : g ≤ 64 := (hg g (List.mem_cons_self g gs)).2
      have hdt : clampDt g = g / 1000 := by
        unfold clampDt; rw [min_eq_right hg64]
      have hstep := stepOffset_mem o speed (clampDt g) spacing ho0 hv
        (by rw [hdt]; positivity) hsp
      have ih := offsetFold_eq speed spacing hv hsp gs
        (stepOffset o speed (clampDt g) spacing) hstep.1 hstep.2
        (fun x hx => hg x (List.mem_cons_of_mem g hx))
      have hsum0 : 0 ≤ gs.sum := by
        apply List.sum_nonneg
        intro x hx; exact (hg x (List.mem_cons_of_mem g hx)).1
      rw [List.foldl_cons, ih]
      unfold stepOffset
      rw [hdt, jsMod_add_jsMod (o + speed * (g / 1000)) (speed * (gs.sum / 1000))
        spacing (by positivity) (by positivity) hsp]
      rw [List.sum_cons]
      ring_nf

/- ### Highlight keys.  A key string `r + ":" + c` built from integers is
faithfully modelled by the pair of integers (the encoding is injective). -/

abbrev Key := ℤ × ℤ

/-- `Math.ceil(n / 2)` for an integer `n`. -/
def ceilHalf (n : ℤ) : ℤ := ⌈(n : ℚ) / 2⌉

/-- `Math.floor(n / 2)` for an integer `n`. -/
def floorHalf (n : ℤ) : ℤ := ⌊(n : ℚ) / 2⌋

/- Window bounds as computed inside `reshuffleHighlightsVisible`
(part_001 lines 130-133). -/

def reshuffleRowStart (rows : ℤ) : ℤ := -(ceilHalf rows) - 1
def reshuffleRowEnd (rows : ℤ) : ℤ := ceilHalf rows + 1
def reshuffleColStart (cols : ℤ) : ℤ := -(ceilHalf cols) - 1
def reshuffleColEnd (cols : ℤ) : ℤ := ceilHalf cols + 1

/- Window bounds as computed inside `frame` (part_001 lines 238-241). -/

def frameRowStart (rows : ℤ) : ℤ := -(ceilHalf rows) - 1
def frameRowEnd (rows : ℤ) : ℤ := ceilHalf rows + 1
def frameColStart (cols : ℤ) : ℤ := -(ceilHalf cols) - 1
def frameColEnd (cols : ℤ) : ℤ := ceilHalf cols + 1

/-- Key pushed for a candidate tile by the reshuffle sampler
(part_001 line 151): `(r - rowStart) + ":" + (c - colStart)`. -/
def sampleKey (rows cols r c : ℤ) : Key :=
  (r - reshuffleRowStart rows, c - reshuffleColStart cols)

/-- Key used by the render loop for the membership test
(part_001 line 260): `(r - rowStart) + ":" + (c - colStart)`. -/
def frameKey (rows cols r c : ℤ) : Key :=
  (r - frameRowStart rows, c - frameColStart cols)

/- ### The pick loop of `reshuffleHighlightsVisible` (part_001 lines 156-162):
for (i = 0; i < candidates.length and picks.size < highlightCount; i++)
  picks.add(candidates[Math.floor(Math.random() * candidates.length)]). -/

def pickLoop (rand : ℕ → ℚ) (hc : ℤ) (cands : List Key) (i : ℕ)
    (picks : Finset Key) : Finset Key :=
  if _h : i < cands.length ∧ (picks.card : ℤ) < hc then
    pickLoop rand hc cands (i + 1)
      (insert (cands.getD (⌊rand i * (cands.length : ℚ)⌋).toNat ((0 : ℤ), (0 : ℤ))) picks)
  else picks
termination_by cands.length - i
decreasing_by omega

/-- The new highlight set produced by the pick phase of
`reshuffleHighlightsVisible`, starting from an empty set. -/
def picks001 (rand : ℕ → ℚ) (hc : ℤ) (cands : List Key) : Finset Key :=
  pickLoop rand hc cands 0 ∅

lemma pickLoop_card_le_hc_aux (rand : ℕ → ℚ) (hc : ℤ) (cands : List Key) :
    ∀ (n i : ℕ) (picks : Finset Key), cands.length - i ≤ n →
      ((pickLoop rand hc cands i picks).card : ℤ) ≤ max (picks.card : ℤ) hc
  | 0, i, picks, hn => by
      rw [pickLoop, dif_neg (by omega)]
      exact le_max_left _ _
  | n + 1, i, picks, hn => by
      rw [pickLoop]
      by_cases h : i < cands.length ∧ (picks.card : ℤ) < hc
      · rw [dif_pos h]
        have hrec := pickLoop_card_le_hc_aux rand hc cands n (i + 1)
          (insert (cands.getD (⌊rand i * (cands.length : ℚ)⌋).toNat
            ((0 : ℤ), (0 : ℤ))) picks) (by omega)
        have hcard : ((insert (cands.getD (⌊rand i * (cands.length : ℚ)⌋).toNat
            ((0 : ℤ), (0 : ℤ))) picks).card : ℤ) ≤ (picks.card : ℤ) + 1 := by
          exact_mod_cast Finset.card_insert_le _ _
        refine le_trans hrec (max_le ?_ (le_max_right _ _))
        calc ((insert _ picks).card : ℤ) ≤ (picks.card : ℤ) + 1 := hcard
          _ ≤ hc := by omega
          _ ≤ max (picks.card : ℤ) hc := le_max_right _ _
      · rw [dif_neg h]; exact le_max_left _ _

lemma pickLoop_card_le_len_aux (rand : ℕ → ℚ) (hc : ℤ) (cands : List Key) :
    ∀ (n i : ℕ) (picks : Finset Key), cands.length - i ≤ n →
      (pickLoop rand hc cands i picks).card ≤ picks.card + (cands.length - i)
  | 0, i, picks, hn => by
      rw [pickLoop, dif_neg (by omega)]; omega
  | n + 1, i, picks, hn => by
      rw [pickLoop]
      by_cases h : i < cands.length ∧ (picks.card : ℤ) < hc
      · rw [dif_pos h]
        have hrec := pickLoop_card_le_len_aux rand hc cands n (i + 1)
          (insert (cands.getD (⌊rand i * (cands.length : ℚ)⌋).toNat
            ((0 : ℤ), (0 : ℤ))) picks) (by omega)
        have hcard := Finset.card_insert_le (cands.getD
          (⌊rand i * (cands.length : ℚ)⌋).toNat ((0 : ℤ), (0 : ℤ))) picks
        omega
      · rw [dif_neg h]; omega

lemma pickLoop_nonempty_aux (rand : ℕ → ℚ) (hc : ℤ) (cands : List Key) :
    ∀ (n i : ℕ) (picks : Finset Key), cands.length - i ≤ n → picks.Nonempty →
      (pickLoop rand hc cands i picks).Nonempty
  | 0, i, picks, hn, hne => by
      rw [pickLoop, dif_neg (by omega)]; exact hne
  | n + 1, i, picks, hn, hne => by
      rw [pickLoop]
      by_cases h : i < cands.length ∧ (picks.card : ℤ) < hc
      · rw [dif_pos h]
        exact pickLoop_nonempty_aux rand hc cands n (i + 1) _ (by omega)
          (Finset.insert_nonempty _ _)
      · rw [dif_neg h]; exact hne

lemma picks001_card_le (rand : ℕ → ℚ) (hc : ℤ) (cands : List Key)
    (hhc : 0 ≤ hc) :
    ((picks001 rand hc cands).card : ℤ) ≤ hc ∧
      (picks001 rand hc cands).card ≤ cands.length := by
  constructor
  · have := pickLoop_card_le_hc_aux rand hc cands cands.length 0 ∅ (by omega)
    simpa [max_eq_right hhc] using this
  · have := pickLoop_card_le_len_aux rand hc cands cands.length 0 ∅ (by omega)
    simpa using this

lemma picks001_nonempty (rand : ℕ → ℚ) (hc : ℤ) (cands : List Key)
    (hlen : 0 < cands.length) (hhc : 0 < hc) :
    (picks001 rand hc cands).Nonempty := by
  unfold picks001
  rw [pickLoop]
  rw [dif_pos ⟨hlen, by simpa using hhc⟩]
  exact pickLoop_nonempty_aux rand hc cands cands.length 1 _ (by omega)
    (Finset.insert_nonempty _ _)

/- ### The seeding loop of `computeCoverageCounts` (part_001 lines 114-124):
max = Math.min(highlightCount, cols * rows);
while (picks.size < max and attempts < cols * rows * 3)
  picks.add(random row in [0, rows) + ":" + random col in [0, cols)). -/

def seedLoop (rand : ℕ → ℚ) (rows cols maxSz : ℤ) :
    ℕ → ℕ → Finset Key → Finset Key
  | 0, _, picks => picks
  | fuel + 1, attempts, picks =>
    if (picks.card : ℤ) < maxSz then
      seedLoop rand rows cols maxSz fuel (attempts + 1)
        (insert (⌊rand (2 * attempts) * (rows : ℚ)⌋,
                 ⌊rand (2 * attempts + 1) * (cols : ℚ)⌋) picks)
    else picks

/-- The highlight set seeded at the end of `computeCoverageCounts`
(part_001); the `while` guard `attempts < cols * rows * 3` is the fuel. -/
def seedHighlights (rand : ℕ → ℚ) (hc rows cols : ℤ) : Finset Key :=
  seedLoop rand rows cols (min hc (cols * rows)) (cols * rows * 3).toNat 0 ∅

lemma seedLoop_card_le (rand : ℕ → ℚ) (rows cols maxSz : ℤ) :
    ∀ (fuel attempts : ℕ) (picks : Finset Key),
      ((seedLoop rand rows cols maxSz fuel attempts picks).card : ℤ)
        ≤ max (picks.card : ℤ) maxSz
  | 0, _, picks => le_max_left _ _
  | fuel + 1, attempts, picks => by
      rw [seedLoop]
      by_cases h : (picks.card : ℤ) < maxSz
      · rw [if_pos h]
        have hrec := seedLoop_card_le rand rows cols maxSz fuel (attempts + 1)
          (insert (⌊rand (2 * attempts) * (rows : ℚ)⌋,
                   ⌊rand (2 * attempts + 1) * (cols : ℚ)⌋) picks)
        have hcard : ((insert (⌊rand (2 * attempts) * (rows : ℚ)⌋,
            ⌊rand (2 * attempts + 1) * (cols : ℚ)⌋) picks).card : ℤ)
            ≤ (picks.card : ℤ) + 1 := by
          exact_mod_cast Finset.card_insert_le _ _
        refine le_trans hrec (max_le ?_ (le_max_right _ _))
        calc ((insert _ picks).card : ℤ) ≤ (picks.card : ℤ) + 1 := hcard
          _ ≤ maxSz := by omega
          _ ≤ max (picks.card : ℤ) maxSz := le_max_right _ _
      · rw [if_neg h]; exact le_max_left _ _

lemma seedHighlights_card_le (rand : ℕ → ℚ) (hc rows cols : ℤ)
    (hhc : 0 ≤ hc) (hcr : 0 ≤ cols * rows) :
    ((seedHighlights rand hc rows cols).card : ℤ) ≤ hc ∧
      ((seedHighlights rand hc rows cols).card : ℤ) ≤ cols * rows := by
  have h := seedLoop_card_le rand rows cols (min hc (cols * rows))
    (cols * rows * 3).toNat 0 ∅
  simp only [Finset.card_empty, Nat.cast_zero] at h
  unfold seedHighlights
  constructor
  · refine le_trans h (max_le hhc (le_trans (min_le_left _ _) le_rfl))
  · refine le_trans h (max_le hcr (min_le_right _ _))

/- ### Geometry of part_001: rotation basis theta = pi / 4 (lines 62-64),
lattice pitch `spacing = diamondSize + gap` (line 49). -/

noncomputable def cosT : ℝ := Real.cos (Real.pi / 4)
noncomputable def sinT : ℝ := Real.sin (Real.pi / 4)

lemma cosT_eq : cosT = Real.sqrt 2 / 2 := Real.cos_pi_div_four
lemma sinT_eq : sinT = Real.sqrt 2 / 2 := Real.sin_pi_div_four

/-- Center-to-center lattice pitch: `spacing = diamondSize + gap`. -/
def spacingOf (ds gp : ℝ) : ℝ := ds + gp

/-- Half the tip-to-tip extent of one diamond: `half = diamondSize / 2`. -/
noncomputable def halfOf (ds : ℝ) : ℝ := ds / 2

/-- Inverse transform `u = x * cos + y * sin` (part_001 line 95). -/
noncomputable def uCoord (x y : ℝ) : ℝ := x * cosT + y * sinT

/-- Inverse transform `v = -x * sin + y * cos` (part_001 line 96). -/
noncomputable def vCoord (x y : ℝ) : ℝ := -x * sinT + y * cosT

/- Bounding box of the four viewport corners in (U,V) space
(part_001 lines 86-101), corners visited in source order. -/

noncomputable def uMaxOf (w h : ℝ) : ℝ :=
  max (max (max (uCoord 0 0) (uCoord w 0)) (uCoord 0 h)) (uCoord w h)
noncomputable def uMinOf (w h : ℝ) : ℝ :=
  min (min (min (uCoord 0 0) (uCoord w 0)) (uCoord 0 h)) (uCoord w h)
noncomputable def vMaxOf (w h : ℝ) : ℝ :=
  max (max (max (vCoord 0 0) (vCoord w 0)) (vCoord 0 h)) (vCoord w h)
noncomputable def vMinOf (w h : ℝ) : ℝ :=
  min (min (min (vCoord 0 0) (vCoord w 0)) (vCoord 0 h)) (vCoord w h)

/-- Padding along U: `spacing * 1.5 + half + 2` (part_001 line 104). -/
noncomputable def uPadOf (ds gp : ℝ) : ℝ := spacingOf ds gp * 1.5 + halfOf ds + 2

/-- Padding along V: `half + 2` (part_001 line 106). -/
noncomputable def vPadOf (ds : ℝ) : ℝ := halfOf ds + 2

/-- `cols = Math.ceil(((umax - umin) + 2 * uPad) / spacing) + 2`
(part_001 line 108). -/
noncomputable def cols001 (ds gp w h : ℝ) : ℤ :=
  ⌈(uMaxOf w h - uMinOf w h + 2 * uPadOf ds gp) / spacingOf ds gp⌉ + 2

/-- `rows = Math.ceil(((vmax - vmin) + 2 * vPad) / rowStride) + 2`
(part_001 line 109, `rowStride = spacing`). -/
noncomputable def rows001 (ds gp w h : ℝ) : ℤ :=
  ⌈(vMaxOf w h - vMinOf w h + 2 * vPadOf ds) / spacingOf ds gp⌉ + 2

/- ### Per-tile drawing math, shared verbatim by the render loop
(part_001 lines 243-255) and the reshuffle visibility scan (lines 135-146).
JavaScript `(r & 1) === 0` on a 32-bit two's complement integer agrees with
`r % 2 = 0` over the mathematical integers. -/

noncomputable def vRowOf (ds gp : ℝ) (r : ℤ) : ℝ :=
  (r : ℝ) * spacingOf ds gp + spacingOf ds gp * 0.5

noncomputable def staggerOf (ds gp : ℝ) (r : ℤ) : ℝ :=
  if r % 2 = 0 then 0 else spacingOf ds gp * 0.5

/-- `uShift = (isEven ? evenSign : oddSign) * off`, with `oddSign = -evenSign`
(part_001 lines 193-194 and 139/247). -/
noncomputable def uShiftOf (eS : ℝ) (r : ℤ) (off : ℝ) : ℝ :=
  (if r % 2 = 0 then eS else -eS) * off

/-- Lattice U coordinate of the tile center:
`uCol + stagger + uShift`, `uCol = c * spacing + spacing * 0.5`. -/
noncomputable def uCenter (ds gp : ℝ) (eS : ℝ) (r c : ℤ) (off : ℝ) : ℝ :=
  ((c : ℝ) * spacingOf ds gp + spacingOf ds gp * 0.5) + staggerOf ds gp r
    + uShiftOf eS r off

/-- Screen x of the tile center: `x = u * cos - vRow * sin` (line 254). -/
noncomputable def tileX (ds gp eS : ℝ) (r c : ℤ) (off : ℝ) : ℝ :=
  uCenter ds gp eS r c off * cosT - vRowOf ds gp r * sinT

/-- Screen y of the tile center: `y = u * sin + vRow * cos` (line 255). -/
noncomputable def tileY (ds gp eS : ℝ) (r c : ℤ) (off : ℝ) : ℝ :=
  uCenter ds gp eS r c off * sinT + vRowOf ds gp r * cosT

/-- The filled area of the prebuilt diamond path (part_001 lines 54-59)
translated to a center: the closed L1 ball of radius `half`. -/
def inDiamond (half px py cx cy : ℝ) : Prop := |px - cx| + |py - cy| ≤ half

/-- The point `(px, py)` lies in the fill area of some diamond of the index
window the render loop iterates (part_001 lines 238-265; the per-tile cull
of line 257 only skips fill calls, so the union over the whole window is an
upper bound on what is painted). -/
def covered001 (ds gp w h off eS px py : ℝ) : Prop :=
  ∃ r c : ℤ,
    frameRowStart (rows001 ds gp w h) ≤ r ∧ r < frameRowEnd (rows001 ds gp w h) ∧
    frameColStart (cols001 ds gp w h) ≤ c ∧ c < frameColEnd (cols001 ds gp w h) ∧
    inDiamond (halfOf ds) px py (tileX ds gp eS r c off) (tileY ds gp eS r c off)

/-- Visibility test of the reshuffle scan (part_001 lines 148-150):
`x > -pad and x < w + pad and y > -pad and y < h + pad`, `pad = half`. -/
def visible001 (ds gp w h off eS : ℝ) (r c : ℤ) : Prop :=
  -halfOf ds < tileX ds gp eS r c off ∧ tileX ds gp eS r c off < w + halfOf ds ∧
  -halfOf ds < tileY ds gp eS r c off ∧ tileY ds gp eS r c off < h + halfOf ds

/-- Integer range `[lo, hi)` in increasing order, as iterated by the nested
`for` loops. -/
def intRange (lo hi : ℤ) : List ℤ :=
  (List.range (hi - lo).toNat).map (fun k => lo + (k : ℤ))

open Classical in
/-- The ordered candidate list built by `reshuffleHighlightsVisible`
(part_001 lines 128-154): row-major scan of the window, keeping the keys of
visible tiles. -/
noncomputable def candidates001 (ds gp w h off eS : ℝ) (cols rows : ℤ) :
    List Key :=
  (intRange (reshuffleRowStart rows) (reshuffleRowEnd rows)).flatMap fun r =>
    (intRange (reshuffleColStart cols) (reshuffleColEnd cols)).filterMap fun c =>
      if visible001 ds gp w h off eS r c then some (sampleKey rows cols r c)
      else none

/-- `reshuffleHighlightsVisible` (part_001 lines 127-163): build the visible
candidate list, then run the pick loop from an empty set.  The result does
not depend on the previous highlight set. -/
noncomputable def reshuffle001 (rand : ℕ → ℚ) (hc : ℤ) (ds gp : ℝ)
    (cols rows : ℤ) (off : ℝ) (w h : ℝ) (eS : ℝ) : Finset Key :=
  picks001 rand hc (candidates001 ds gp w h off eS cols rows)

/- ### The per-frame state machine of part_001 (function `frame`,
lines 204-268).  Wall-clock times and the scroll offset are rationals;
the viewport size feeds the real-valued reshuffle geometry. -/

/-- The component options that the frame logic reads. -/
structure Cfg where
  ds : ℚ
  gp : ℚ
  speed : ℚ
  hc : ℤ
  hms : ℚ
  targetFps : ℚ
  evenSign : ℚ

/-- Mutable animation state captured by the closure:
`last`, `acc`, `off`, `lastShuffleRef`, `highlightsRef`. -/
structure FState where
  last : ℚ
  acc : ℚ
  off : ℚ
  lastShuffle : ℚ
  highlights : Finset Key

/-- One call of `frame(now)` in part_001: clamp the time delta, apply the
optional frame-rate gate (lines 209-218, early return without touching the
offset or highlights), update the scroll offset (lines 223-224), and run the
time-gated reshuffle (lines 229-234).  The returned Bool reports whether the
reshuffle fired. -/
noncomputable def frameStep001 (cfg : Cfg) (rand : ℕ → ℚ) (w h : ℝ)
    (cols rows : ℤ) (s : FState) (now : ℚ) (reduced : Bool) : FState × Bool :=
  let dt0 := min 64 (now - s.last) / 1000
  if 0 < cfg.targetFps ∧ s.acc + dt0 < 1 / cfg.targetFps then
    ({ s with last := now, acc := s.acc + dt0 }, false)
  else
    let dt := if 0 < cfg.targetFps then 1 / cfg.targetFps else dt0
    let acc1 := if 0 < cfg.targetFps then jsMod (s.acc + dt0) (1 / cfg.targetFps)
      else s.acc
    let v : ℚ := if reduced then 0 else cfg.speed
    let off1 := jsMod (s.off + v * dt) (cfg.ds + cfg.gp)
    let fired : Bool := decide (cfg.hms < now - s.lastShuffle)
    ({ last := now, acc := acc1, off := off1,
       lastShuffle := if fired then now else s.lastShuffle,
       highlights :=
         if fired then
           reshuffle001 rand cfg.hc (cfg.ds : ℝ) (cfg.gp : ℝ) cols rows
             ((off1 : ℚ) : ℝ) w h (cfg.evenSign : ℝ)
         else s.highlights }, fired)

/- ### part_000: the Map-based draft.  Rotation basis
theta = pi / 4 + pi / 2 (line 66); the render grid is translated to the
viewport center (lines 248-249). -/

noncomputable def cosT0 : ℝ := Real.cos (Real.pi / 4 + Real.pi / 2)
noncomputable def sinT0 : ℝ := Real.sin (Real.pi / 4 + Real.pi / 2)

/-- `Math.sqrt(width * width + height * height)` -/
noncomputable def diag (w h : ℝ) : ℝ := Real.sqrt (w * w + h * h)

/-- part_000 `computeCoverageCounts` (lines 73-85):
`cols = Math.ceil((diagonal + padding * 2) / spacing) + 10`,
`padding = spacing * 3`. -/
noncomputable def cols000 (ds gp w h : ℝ) : ℤ :=
  ⌈(diag w h + spacingOf ds gp * 3 * 2) / spacingOf ds gp⌉ + 10

/-- part_000 rows, same formula as cols (line 81). -/
noncomputable def rows000 (ds gp w h : ℝ) : ℤ :=
  ⌈(diag w h + spacingOf ds gp * 3 * 2) / spacingOf ds gp⌉ + 10

/-- The highlight map written by part_000 `computeCoverageCounts`
(lines 87-88): a fresh empty Map. -/
def seed000 : Finset Key := ∅

/-- `transitDistance = maxDistance + spacing * 2` (part_000 lines 98-99). -/
noncomputable def transitDistance000 (ds gp w h : ℝ) : ℝ :=
  diag w h + spacingOf ds gp * 2

/-- The highlight Map of part_000: key set plus the `startOffset` recorded
with each entry (the stored `row`/`col` fields merely repeat the key). -/
structure HL where
  keys : Finset Key
  start : Key → ℝ

open Classical in
/-- The removal loop of `manageHighlights` (part_000 lines 102-107): delete
every entry whose `|currentOffset - startOffset|` exceeds the transit
distance. -/
noncomputable def deleteFar (ds gp w h off : ℝ) (H : HL) : HL :=
  { keys := H.keys.filter
      (fun k => ¬ transitDistance000 ds gp w h < |off - H.start k|),
    start := H.start }

/-- The spawn target of one iteration of the spawn loop (part_000 lines
113-132): a random row, and the column obtained by back-solving the screen
position of the left viewport edge (`targetY` is computed by the source but
never used). -/
noncomputable def spawnKey000 (ds gp w _h off eS : ℝ) (rows : ℤ) (rnd : ℚ) :
    Key :=
  let row : ℤ := ⌊rnd * (rows : ℚ)⌋ - floorHalf rows
  let vRow : ℝ := (row : ℝ) * spacingOf ds gp + spacingOf ds gp * 0.5
  let stagger : ℝ := if row % 2 = 0 then 0 else spacingOf ds gp * 0.5
  let uShift : ℝ := (if row % 2 = 0 then eS else -eS) * off
  let u : ℝ := (-ds - w / 2 + vRow * sinT0) / cosT0
  (row, ⌊(u - stagger - uShift - spacingOf ds gp * 0.5) / spacingOf ds gp + 1 / 2⌋)

/-- `if (!highlights.has(key)) highlights.set(key, {..., startOffset})`
(part_000 lines 134-140). -/
noncomputable def spawnOne (off : ℝ) (k : Key) (H : HL) : HL :=
  if k ∈ H.keys then H
  else { keys := insert k H.keys,
         start := fun p => if p = k then off else H.start p }

/-- The spawn `for` loop (part_000 lines 113-141), one `Math.random()` call
per iteration. -/
noncomputable def spawnLoop (ds gp w h off eS : ℝ) (rows : ℤ)
    (rand : ℕ → ℚ) : ℕ → ℕ → HL → HL
  | _, 0, H => H
  | i, n + 1, H =>
      spawnLoop ds gp w h off eS rows rand (i + 1) n
        (spawnOne off (spawnKey000 ds gp w h off eS rows (rand i)) H)

/-- `manageHighlights` (part_000 lines 91-145): removal loop, then the
time-gated spawn of `numToSpawn = Math.min(highlightCount - size, 2)` new
edge-anchored entries (`cols` is passed by the caller but unused). -/
noncomputable def manage000 (ds gp w h : ℝ) (_cols rows : ℤ) (off eS : ℝ)
    (now lastSpawn hms : ℚ) (hc : ℤ) (rand : ℕ → ℚ) (H : HL) : HL :=
  let H1 := deleteFar ds gp w h off H
  if hms < now - lastSpawn then
    spawnLoop ds gp w h off eS rows rand 0
      (min (hc - (H1.keys.card : ℤ)) 2).toNat H1
  else H1

/- ### Helper facts about the rotation basis and the corner bounding box. -/

lemma sqrt2_sq : Real.sqrt 2 ^ 2 = 2 := Real.sq_sqrt (by norm_num)

lemma sqrt2_gt : (1.414 : ℝ) < Real.sqrt 2 := by
  nlinarith [sqrt2_sq, Real.sqrt_nonneg 2]

lemma sqrt2_lt : Real.sqrt 2 < (1.415 : ℝ) := by
  nlinarith [sqrt2_sq, Real.sqrt_nonneg 2]

lemma cosT_pos : 0 < cosT := by
  rw [cosT_eq]
  have := sqrt2_gt
  linarith

lemma sinT_pos : 0 < sinT := by
  rw [sinT_eq]
  have := sqrt2_gt
  linarith

/-- For a nonnegative viewport the U bounding box of the corners spans
exactly `w * cos + h * sin`. -/
lemma uExtent_eq (w h : ℝ) (hw : 0 ≤ w) (hh : 0 ≤ h) :
    uMaxOf w h - uMinOf w h = w * cosT + h * sinT := by
  have hc := cosT_pos
  have hs := sinT_pos
  have hwc : 0 ≤ w * cosT := mul_nonneg hw hc.le
  have hhs : 0 ≤ h * sinT := mul_nonneg hh hs.le
  unfold uMaxOf uMinOf uCoord
  rw [show (0:ℝ) * cosT + 0 * sinT = 0 by ring,
    show w * cosT + 0 * sinT = w * cosT by ring,
    show (0:ℝ) * cosT + h * sinT = h * sinT by ring]
  rw [max_eq_right hwc, max_eq_right (max_le (by linarith) (by linarith)),
    min_eq_left hwc, min_eq_left hhs, min_eq_left (by linarith)]
  ring

/-- For a nonnegative viewport the V bounding box of the corners spans
exactly `w * sin + h * cos`. -/
lemma vExtent_eq (w h : ℝ) (hw : 0 ≤ w) (hh : 0 ≤ h) :
    vMaxOf w h - vMinOf w h = w * sinT + h * cosT := by
  have hc := cosT_pos
  have hs := sinT_pos
  have hws : 0 ≤ w * sinT := mul_nonneg hw hs.le
  have hhc : 0 ≤ h * cosT := mul_nonneg hh hc.le
  unfold vMaxOf vMinOf vCoord
  rw [show -(0:ℝ) * sinT + 0 * cosT = 0 by ring,
    show -w * sinT + 0 * cosT = -(w * sinT) by ring,
    show -(0:ℝ) * sinT + h * cosT = h * cosT by ring,
    show -w * sinT + h * cosT = h * cosT - w * sinT by ring]
  rw [max_eq_left (show -(w * sinT) ≤ (0:ℝ) by linarith),
    max_eq_right (show (0:ℝ) ≤ h * cosT from hhc),
    max_eq_left (show h * cosT - w * sinT ≤ h * cosT by linarith),
    min_eq_right (show -(w * sinT) ≤ (0:ℝ) by linarith),
    min_eq_left (show -(w * sinT) ≤ h * cosT by linarith),
    min_eq_left (show -(w * sinT) ≤ h * cosT - w * sinT by linarith)]
  ring

lemma spawnOne_mem (off : ℝ) (k : Key) (H : HL) (x : Key)
    (hx : x ∈ H.keys) : x ∈ (spawnOne off k H).keys := by
  unfold spawnOne
  by_cases h : k ∈ H.keys
  · rw [if_pos h]; exact hx
  · rw [if_neg h]; exact Finset.mem_insert_of_mem hx

lemma spawnOne_card (off : ℝ) (k : Key) (H : HL) :
    (spawnOne off k H).keys.card ≤ H.keys.card + 1 := by
  unfold spawnOne
  by_cases h : k ∈ H.keys
  · rw [if_pos h]; omega
  · rw [if_neg h]
    have := Finset.card_insert_le k H.keys
    simpa using this

lemma spawnLoop_mem (ds gp w h off eS : ℝ) (rows : ℤ) (rand : ℕ → ℚ) :
    ∀ (i n : ℕ) (H : HL) (x : Key), x ∈ H.keys →
      x ∈ (spawnLoop ds gp w h off eS rows rand i n H).keys
  | _, 0, _, _, hx => hx
  | i, n + 1, H, x, hx =>
      spawnLoop_mem ds gp w h off eS rows rand (i + 1) n _ x
        (spawnOne_mem off _ H x hx)

lemma spawnLoop_card (ds gp w h off eS : ℝ) (rows : ℤ) (rand : ℕ → ℚ) :
    ∀ (i n : ℕ) (H : HL),
      (spawnLoop ds gp w h off eS rows rand i n H).keys.card
        ≤ H.keys.card + n
  | _, 0, _ => le_rfl
  | i, n + 1, H => by
      have h1 := spawnLoop_card ds gp w h off eS rows rand (i + 1) n
        (spawnOne off (spawnKey000 ds gp w h off eS rows (rand i)) H)
      have h2 := spawnOne_card off (spawnKey000 ds gp w h off eS rows (rand i)) H
      calc (spawnLoop ds gp w h off eS rows rand i (n + 1) H).keys.card
          = (spawnLoop ds gp w h off eS rows rand (i + 1) n
              (spawnOne off (spawnKey000 ds gp w h off eS rows (rand i)) H)).keys.card := rfl
        _ ≤ (spawnOne off (spawnKey000 ds gp w h off eS rows (rand i)) H).keys.card + n := h1
        _ ≤ H.keys.card + 1 + n := by omega
        _ = H.keys.card + (n + 1) := by omega

/- ### Further helper lemmas used by the claim theorems. -/

lemma deleteFar_card_le (ds gp w h off : ℝ) (H : HL) :
    (deleteFar ds gp w h off H).keys.card ≤ H.keys.card :=
  Finset.card_filter_le _ _

/-- When the injected random stream is constantly zero, every iteration of
the pick loop re-inserts the head candidate, so the set never grows past it. -/
lemma pickLoop_const_zero (hc : ℤ) (k : Key) (tl : List Key) :
    ∀ (n i : ℕ) (picks : Finset Key), (k :: tl).length - i ≤ n →
      pickLoop (fun _ => 0) hc (k :: tl) i (insert k picks) = insert k picks
  | 0, i, picks, hn => by
      rw [pickLoop, dif_neg (by omega)]
  | n + 1, i, picks, hn => by
      rw [pickLoop]
      by_cases hcond : i < (k :: tl).length ∧ ((insert k picks).card : ℤ) < hc
      · rw [dif_pos hcond]
        have hget : (k :: tl).getD
            (⌊(fun _ : ℕ => (0 : ℚ)) i * (((k :: tl).length : ℕ) : ℚ)⌋).toNat
            ((0 : ℤ), (0 : ℤ)) = k := by
          simp
        rw [hget, Finset.insert_idem]
        exact pickLoop_const_zero hc k tl n (i + 1) picks (by omega)
      · rw [dif_neg hcond]

lemma counts001_zero : cols001 20 24 0 0 = 6 ∧ rows001 20 24 0 0 = 3 := by
  have hu : uMaxOf 0 0 - uMinOf 0 0 = 0 := by
    unfold uMaxOf uMinOf uCoord; norm_num
  have hv : vMaxOf 0 0 - vMinOf 0 0 = 0 := by
    unfold vMaxOf vMinOf vCoord; norm_num
  constructor
  · unfold cols001
    rw [hu]
    have h156 : (0 + 2 * uPadOf 20 24) / spacingOf 20 24 = (156 : ℝ) / 44 := by
      unfold uPadOf spacingOf halfOf; norm_num
    rw [h156]
    have hceil : ⌈(156 : ℝ) / 44⌉ = (4 : ℤ) := by
      rw [Int.ceil_eq_iff]
      constructor <;> norm_num
    rw [hceil]
    norm_num
  · unfold rows001
    rw [hv]
    have h24 : (0 + 2 * vPadOf 20) / spacingOf 20 24 = (24 : ℝ) / 44 := by
      unfold vPadOf spacingOf halfOf; norm_num
    rw [h24]
    have hceil : ⌈(24 : ℝ) / 44⌉ = (1 : ℤ) := by
      rw [Int.ceil_eq_iff]
      constructor <;> norm_num
    rw [hceil]
    norm_num

/- ### Claim theorems. -/

/-- C4: the scroll-offset accumulator.  Each execution of the update line
sets the offset to `(offset + effectiveSpeed * dt) mod spacing`, which always
lies in `[0, spacing)`; and with `tileSize = 20`, `gap = 24` (spacing 44),
advancing the clock by a total of 4.4 seconds at speed 10 from offset 0
accumulates a raw offset of `44`, wrapped back to `0`. -/
theorem C4_offset_accumulator :
    (∀ off v dt spacing : ℚ, 0 ≤ off → 0 ≤ v → 0 ≤ dt → 0 < spacing →
      stepOffset off v dt spacing = jsMod (off + v * dt) spacing ∧
      0 ≤ stepOffset off v dt spacing ∧ stepOffset off v dt spacing < spacing) ∧
    (∀ gaps : List ℚ, (∀ g ∈ gaps, 0 ≤ g ∧ g ≤ 64) → gaps.sum = 4400 →
      10 * (gaps.sum / 1000) = 44 ∧ offsetAfter 10 44 gaps = 0) := by
  constructor
  · intro off v dt spacing h1 h2 h3 h4
    exact ⟨rfl, stepOffset_mem off v dt spacing h1 h2 h3 h4⟩
  · intro gaps hg hsum
    constructor
    · rw [hsum]; norm_num
    · unfold offsetAfter
      rw [offsetFold_eq 10 44 (by norm_num) (by norm_num) gaps 0 le_rfl
        (by norm_num) hg, hsum]
      norm_num [jsMod, jsTrunc]

/-- Witness for C4 at a concrete run: one hundred frames of 44 ms each. -/
theorem C4_offset_accumulator_witness :
    (0 ≤ stepOffset 0 10 (1 / 100) 44 ∧ stepOffset 0 10 (1 / 100) 44 < 44) ∧
    offsetAfter 10 44 (List.replicate 100 (44 : ℚ)) = 0 :=
  ⟨(C4_offset_accumulator.1 0 10 (1 / 100) 44 (by norm_num) (by norm_num)
      (by norm_num) (by norm_num)).2,
   (C4_offset_accumulator.2 (List.replicate 100 (44 : ℚ))
      (fun g hg => by rw [List.eq_of_mem_replicate hg]; norm_num)
      (by rw [List.sum_replicate]; norm_num)).2⟩

/-- C3: the key space used by the reshuffle sampler and the key space used
by the membership test of the render loop coincide, and for fixed coverage
counts a key determines a unique lattice tile.  Both key functions depend
only on `(cols, rows)`, which change only on resize, so a key sampled at
reshuffle time denotes the same logical tile at every frame of the interval. -/
theorem C3_key_space_stable :
    (∀ rows cols r c : ℤ, sampleKey rows cols r c = frameKey rows cols r c) ∧
    (∀ rows cols r c r2 c2 : ℤ,
      frameKey rows cols r c = frameKey rows cols r2 c2 → r = r2 ∧ c = c2) := by
  constructor
  · intro rows cols r c; rfl
  · intro rows cols r c r2 c2 hk
    have h1 := congrArg Prod.fst hk
    have h2 := congrArg Prod.snd hk
    simp only [frameKey] at h1 h2
    omega

/-- Witness for C3 at concrete window sizes and indices. -/
theorem C3_key_space_stable_witness :
    sampleKey 26 29 2 3 = frameKey 26 29 2 3 ∧ ((2 : ℤ) = 2 ∧ (3 : ℤ) = 3) :=
  ⟨C3_key_space_stable.1 26 29 2 3, C3_key_space_stable.2 26 29 2 3 2 3 rfl⟩

/-- C5 counterexample: the pick loop draws with replacement.  With
`highlightCount = 6`, exactly three eligible candidate keys and a random
stream that always returns 0, the resulting highlight set has size 1,
not 3. -/
theorem C5_pick_counterexample :
    (picks001 (fun _ => 0) 6
      [((0 : ℤ), (0 : ℤ)), ((0 : ℤ), (1 : ℤ)), ((0 : ℤ), (2 : ℤ))]).card = 1 := by
  unfold picks001
  rw [pickLoop, dif_pos (by norm_num)]
  have hget : ([((0 : ℤ), (0 : ℤ)), ((0 : ℤ), (1 : ℤ)), ((0 : ℤ), (2 : ℤ))] : List Key).getD
      (⌊(fun _ : ℕ => (0 : ℚ)) 0 * ((([((0 : ℤ), (0 : ℤ)), ((0 : ℤ), (1 : ℤ)),
        ((0 : ℤ), (2 : ℤ))] : List Key).length : ℕ) : ℚ)⌋).toNat
      ((0 : ℤ), (0 : ℤ)) = ((0 : ℤ), (0 : ℤ)) := by simp
  rw [hget]
  rw [pickLoop_const_zero 6 ((0 : ℤ), (0 : ℤ))
    [((0 : ℤ), (1 : ℤ)), ((0 : ℤ), (2 : ℤ))] 3 1 ∅ (by norm_num)]
  rfl

/-- C5 amended: the reshuffle pick phase returns at most
`min(highlightCount, #eligible)` distinct keys and at least one when any
candidate is eligible; with `highlightCount = 6` and three eligible tiles
the resulting size is between 1 and 3 (equality with 3 is not guaranteed,
because the loop samples the candidate list with replacement). -/
theorem C5_eligible_exhaustion :
    (∀ (rand : ℕ → ℚ) (hc : ℤ) (cands : List Key), 0 ≤ hc →
      ((picks001 rand hc cands).card : ℤ) ≤ hc ∧
      (picks001 rand hc cands).card ≤ cands.length) ∧
    (∀ (rand : ℕ → ℚ) (cands : List Key), cands.length = 3 →
      1 ≤ (picks001 rand 6 cands).card ∧ (picks001 rand 6 cands).card ≤ 3) := by
  constructor
  · exact fun rand hc cands h => picks001_card_le rand hc cands h
  · intro rand cands hlen
    constructor
    · exact Finset.card_pos.mpr (picks001_nonempty rand 6 cands (by omega)
        (by norm_num))
    · have := (picks001_card_le rand 6 cands (by norm_num)).2
      omega

/-- Witness for C5 at a concrete random stream and candidate list. -/
theorem C5_eligible_exhaustion_witness :
    1 ≤ (picks001 (fun _ => 1 / 2) 6
        [((0 : ℤ), (0 : ℤ)), ((0 : ℤ), (1 : ℤ)), ((0 : ℤ), (2 : ℤ))]).card ∧
    (picks001 (fun _ => 1 / 2) 6
        [((0 : ℤ), (0 : ℤ)), ((0 : ℤ), (1 : ℤ)), ((0 : ℤ), (2 : ℤ))]).card ≤ 3 :=
  C5_eligible_exhaustion.2 (fun _ => 1 / 2)
    [((0 : ℤ), (0 : ℤ)), ((0 : ℤ), (1 : ℤ)), ((0 : ℤ), (2 : ℤ))] (by rfl)

/-- C7: every operation that writes a highlight set respects the bounds.
The part_001 seeding is bounded by `highlightCount` and by `cols * rows`;
the part_001 visible reshuffle is bounded by `highlightCount` and by the
eligible candidate count; part_000 `manageHighlights` preserves the
`highlightCount` bound; the part_000 seeding writes the empty map. -/
theorem C7_highlight_bound :
    (∀ (rand : ℕ → ℚ) (hc rows cols : ℤ), 0 ≤ hc → 0 ≤ cols * rows →
      ((seedHighlights rand hc rows cols).card : ℤ) ≤ hc ∧
      ((seedHighlights rand hc rows cols).card : ℤ) ≤ cols * rows) ∧
    (∀ (rand : ℕ → ℚ) (hc : ℤ) (cands : List Key), 0 ≤ hc →
      ((picks001 rand hc cands).card : ℤ) ≤ hc ∧
      (picks001 rand hc cands).card ≤ cands.length) ∧
    (∀ (ds gp w h off eS : ℝ) (cols rows : ℤ) (now lastSpawn hms : ℚ)
      (hc : ℤ) (rand : ℕ → ℚ) (H : HL), (H.keys.card : ℤ) ≤ hc →
      ((manage000 ds gp w h cols rows off eS now lastSpawn hms hc rand
        H).keys.card : ℤ) ≤ hc) ∧
    seed000 = (∅ : Finset Key) := by
  refine ⟨?_, ?_, ?_, rfl⟩
  · exact fun rand hc rows cols h1 h2 => seedHighlights_card_le rand hc rows cols h1 h2
  · exact fun rand hc cands h => picks001_card_le rand hc cands h
  · intro ds gp w h off eS cols rows now lastSpawn hms hc rand H hH
    unfold manage000
    have h1 : ((deleteFar ds gp w h off H).keys.card : ℤ) ≤ hc := by
      have := deleteFar_card_le ds gp w h off H
      omega
    by_cases hg : hms < now - lastSpawn
    · rw [if_pos hg]
      have h2 := spawnLoop_card ds gp w h off eS rows rand 0
        (min (hc - ((deleteFar ds gp w h off H).keys.card : ℤ)) 2).toNat
        (deleteFar ds gp w h off H)
      have h3 := Int.toNat_eq_max
        (min (hc - ((deleteFar ds gp w h off H).keys.card : ℤ)) 2)
      omega
    · rw [if_neg hg]; exact h1

/-- Witness for C7 at concrete inputs for each conjunct. -/
theorem C7_highlight_bound_witness :
    ((seedHighlights (fun _ => 0) 6 26 29).card : ℤ) ≤ 6 ∧
    ((picks001 (fun _ => 0) 6 [((0 : ℤ), (0 : ℤ))]).card : ℤ) ≤ 6 ∧
    ((manage000 20 24 800 600 29 26 10 1 20001 0 10000 6 (fun _ => 0)
        ⟨{((0 : ℤ), (0 : ℤ))}, fun _ => 0⟩).keys.card : ℤ) ≤ 6 ∧
    seed000 = (∅ : Finset Key) :=
  ⟨(C7_highlight_bound.1 (fun _ => 0) 6 26 29 (by norm_num) (by norm_num)).1,
   (C7_highlight_bound.2.1 (fun _ => 0) 6 [((0 : ℤ), (0 : ℤ))] (by norm_num)).1,
   C7_highlight_bound.2.2.1 20 24 800 600 10 1 29 26 20001 0 10000 6
     (fun _ => 0) ⟨{((0 : ℤ), (0 : ℤ))}, fun _ => 0⟩ (by simp),
   C7_highlight_bound.2.2.2⟩

/-- C8 counterexample: at a zero-size viewport the part_001 coverage
computation does not produce zero counts (with the default configuration it
produces 6 columns). -/
theorem C8_zero_viewport_counterexample :
    ¬ (cols001 20 24 0 0 = 0 ∧ rows001 20 24 0 0 = 0) := by
  intro hzero
  have := counts001_zero.1
  omega

/-- C8 amended: at a zero-size viewport the coverage computation produces
the padding-determined minimum counts `cols = 6` and `rows = 3` (default
tile configuration) rather than zero; the render loop iterates that window
without error, drawing only what survives the per-tile cull. -/
theorem C8_zero_viewport_counts : cols001 20 24 0 0 = 6 ∧ rows001 20 24 0 0 = 3 :=
  counts001_zero

/-- C9: coverage counts are monotone in the viewport size, in both drafts:
if the viewport shrinks (e.g. from 1920x1080 down to 320x480) the computed
`cols` and `rows` shrink as well (more precisely, never grow). -/
theorem C9_counts_monotone (ds gp w1 h1 w2 h2 : ℝ)
    (hsp : 0 < spacingOf ds gp) (hw1 : 0 ≤ w1) (hw12 : w1 ≤ w2)
    (hh1 : 0 ≤ h1) (hh12 : h1 ≤ h2) :
    cols001 ds gp w1 h1 ≤ cols001 ds gp w2 h2 ∧
    rows001 ds gp w1 h1 ≤ rows001 ds gp w2 h2 ∧
    cols000 ds gp w1 h1 ≤ cols000 ds gp w2 h2 ∧
    rows000 ds gp w1 h1 ≤ rows000 ds gp w2 h2 := by
  have hw2 : 0 ≤ w2 := le_trans hw1 hw12
  have hh2 : 0 ≤ h2 := le_trans hh1 hh12
  have hc := cosT_pos
  have hs := sinT_pos
  have hmono1 : w1 * cosT + h1 * sinT ≤ w2 * cosT + h2 * sinT := by
    have := mul_le_mul_of_nonneg_right hw12 hc.le
    have := mul_le_mul_of_nonneg_right hh12 hs.le
    linarith
  have hmono2 : w1 * sinT + h1 * cosT ≤ w2 * sinT + h2 * cosT := by
    have := mul_le_mul_of_nonneg_right hw12 hs.le
    have := mul_le_mul_of_nonneg_right hh12 hc.le
    linarith
  have hdiag : diag w1 h1 ≤ diag w2 h2 := by
    unfold diag
    apply Real.sqrt_le_sqrt
    nlinarith
  refine ⟨?_, ?_, ?_, ?_⟩
  · unfold cols001
    rw [uExtent_eq w1 h1 hw1 hh1, uExtent_eq w2 h2 hw2 hh2]
    have : (w1 * cosT + h1 * sinT + 2 * uPadOf ds gp) / spacingOf ds gp
        ≤ (w2 * cosT + h2 * sinT + 2 * uPadOf ds gp) / spacingOf ds gp :=
      (div_le_div_iff_of_pos_right hsp).mpr (by linarith)
    exact add_le_add_right (Int.ceil_mono this) 2
  · unfold rows001
    rw [vExtent_eq w1 h1 hw1 hh1, vExtent_eq w2 h2 hw2 hh2]
    have : (w1 * sinT + h1 * cosT + 2 * vPadOf ds) / spacingOf ds gp
        ≤ (w2 * sinT + h2 * cosT + 2 * vPadOf ds) / spacingOf ds gp :=
      (div_le_div_iff_of_pos_right hsp).mpr (by linarith)
    exact add_le_add_right (Int.ceil_mono this) 2
  · unfold cols000
    have : (diag w1 h1 + spacingOf ds gp * 3 * 2) / spacingOf ds gp
        ≤ (diag w2 h2 + spacingOf ds gp * 3 * 2) / spacingOf ds gp :=
      (div_le_div_iff_of_pos_right hsp).mpr (by linarith)
    exact add_le_add_right (Int.ceil_mono this) 10
  · unfold rows000
    have : (diag w1 h1 + spacingOf ds gp * 3 * 2) / spacingOf ds gp
        ≤ (diag w2 h2 + spacingOf ds gp * 3 * 2) / spacingOf ds gp :=
      (div_le_div_iff_of_pos_right hsp).mpr (by linarith)
    exact add_le_add_right (Int.ceil_mono this) 10

/-- Witness for C9: shrinking from 1920x1080 to 320x480 at the default tile
configuration. -/
theorem C9_counts_monotone_witness :
    cols001 20 24 320 480 ≤ cols001 20 24 1920 1080 ∧
    rows001 20 24 320 480 ≤ rows001 20 24 1920 1080 ∧
    cols000 20 24 320 480 ≤ cols000 20 24 1920 1080 ∧
    rows000 20 24 320 480 ≤ rows000 20 24 1920 1080 :=
  C9_counts_monotone 20 24 320 480 1920 1080
    (by norm_num [spacingOf]) (by norm_num) (by norm_num) (by norm_num)
    (by norm_num)

/-- An entry that survives the removal loop survives the whole
`manageHighlights` call (the spawn loop only adds entries). -/
lemma manage000_keeps (ds gp w h off eS : ℝ) (cols rows : ℤ)
    (now lastSpawn hms : ℚ) (hc : ℤ) (rand : ℕ → ℚ) (H : HL) (k : Key)
    (hk : k ∈ (deleteFar ds gp w h off H).keys) :
    k ∈ (manage000 ds gp w h cols rows off eS now lastSpawn hms hc rand
      H).keys := by
  unfold manage000
  by_cases hg : hms < now - lastSpawn
  · rw [if_pos hg]
    exact spawnLoop_mem ds gp w h off eS rows rand 0 _ _ k hk
  · rw [if_neg hg]; exact hk

/-- C10: in the Map-based draft (part_000) the highlight-expiry branch is
unreachable.  The offset is wrapped into `[0, spacing)` every frame, so
`|currentOffset - startOffset|` is always strictly below `spacing`, which
for every viewport size `w, h ≥ 0` is strictly below
`transitDistance = sqrt(w*w + h*h) + 2*spacing`; hence the travel-distance
check deletes nothing and entries persist until the component re-seeds on
resize. -/
theorem C10_expiry_unreachable (ds gp w h off eS : ℝ) (cols rows : ℤ)
    (now lastSpawn hms : ℚ) (hc : ℤ) (rand : ℕ → ℚ) (H : HL)
    (hsp : 0 < spacingOf ds gp) (_hw : 0 ≤ w) (_hh : 0 ≤ h)
    (hoff0 : 0 ≤ off) (hoff1 : off < spacingOf ds gp)
    (hstart : ∀ k ∈ H.keys, 0 ≤ H.start k ∧ H.start k < spacingOf ds gp) :
    (∀ k ∈ H.keys, |off - H.start k| < spacingOf ds gp) ∧
    spacingOf ds gp < transitDistance000 ds gp w h ∧
    (deleteFar ds gp w h off H).keys = H.keys ∧
    (∀ k ∈ H.keys,
      k ∈ (manage000 ds gp w h cols rows off eS now lastSpawn hms hc rand
        H).keys) := by
  have habs : ∀ k ∈ H.keys, |off - H.start k| < spacingOf ds gp := by
    intro k hk
    have h := hstart k hk
    rw [abs_sub_lt_iff]
    constructor <;> linarith
  have hlt : spacingOf ds gp < transitDistance000 ds gp w h := by
    unfold transitDistance000 diag
    have := Real.sqrt_nonneg (w * w + h * h)
    linarith
  have hdel : (deleteFar ds gp w h off H).keys = H.keys := by
    have hrfl : (deleteFar ds gp w h off H).keys
        = H.keys.filter (fun k => ¬ transitDistance000 ds gp w h
            < |off - H.start k|) := rfl
    rw [hrfl]
    apply Finset.filter_true_of_mem
    intro k hk
    have := habs k hk
    intro hcon
    linarith
  refine ⟨habs, hlt, hdel, ?_⟩
  intro k hk
  exact manage000_keeps ds gp w h off eS cols rows now lastSpawn hms hc rand
    H k (by rw [hdel]; exact hk)

/-- Witness for C10 at the default configuration, an 800x600 viewport and
one stored highlight. -/
theorem C10_expiry_unreachable_witness :
    spacingOf 20 24 < transitDistance000 20 24 800 600 ∧
    ((0 : ℤ), (0 : ℤ)) ∈ (manage000 20 24 800 600 29 26 10 1 20001 0 10000 6
      (fun _ => 0) ⟨{((0 : ℤ), (0 : ℤ))}, fun _ => 0⟩).keys := by
  have h := C10_expiry_unreachable 20 24 800 600 10 1 29 26 20001 0 10000 6
    (fun _ => 0) ⟨{((0 : ℤ), (0 : ℤ))}, fun _ => 0⟩
    (by norm_num [spacingOf]) (by norm_num) (by norm_num) (by norm_num)
    (by norm_num [spacingOf])
    (by intro k hk; constructor <;> norm_num [spacingOf])
  exact ⟨h.2.1, h.2.2.2 ((0 : ℤ), (0 : ℤ)) (Finset.mem_singleton_self _)⟩

/-- C2 counterexample: in the Map-based draft (part_000) an existing
highlight survives a reshuffle tick.  At a spawn tick
(`now - lastSpawn > highlightEveryMs`) with one stored entry whose travel
distance is far below the transit distance, the entry is still present
afterwards, so the set is not replaced wholesale and entries do survive past
the next reshuffle. -/
theorem C2_survival_counterexample :
    (10000 : ℚ) < 20001 - 0 ∧
    ((0 : ℤ), (0 : ℤ)) ∈ (manage000 20 24 800 600 29 26 10 1 20001 0 10000 6
      (fun _ => 0) ⟨{((0 : ℤ), (0 : ℤ))}, fun _ => 0⟩).keys := by
  refine ⟨by norm_num, ?_⟩
  apply manage000_keeps
  have hrfl : (deleteFar 20 24 800 600 10
      ⟨{((0 : ℤ), (0 : ℤ))}, fun _ => 0⟩).keys
      = ({((0 : ℤ), (0 : ℤ))} : Finset Key).filter
          (fun k => ¬ transitDistance000 20 24 800 600
            < |(10 : ℝ) - (fun _ => (0 : ℝ)) k|) := rfl
  rw [hrfl, Finset.mem_filter]
  refine ⟨Finset.mem_singleton_self _, ?_⟩
  intro hcon
  have hsqrt : Real.sqrt ((800 : ℝ) * 800 + 600 * 600) = 1000 := by
    rw [show (800 : ℝ) * 800 + 600 * 600 = 1000 ^ 2 by norm_num]
    exact Real.sqrt_sq (by norm_num)
  unfold transitDistance000 diag spacingOf at hcon
  rw [hsqrt] at hcon
  have habs : |(10 : ℝ) - (fun _ => (0 : ℝ)) ((0 : ℤ), (0 : ℤ))| = 10 := by
    norm_num
  rw [habs] at hcon
  norm_num at hcon

/-- C2 amended: highlight lifecycle.  In the Set-based draft (part_001) the
reshuffle replaces the whole set atomically: the outcome of a frame does not
depend on the previous highlight set, when the reshuffle fires the new set
is a fresh sample, and when it does not fire the set is exactly the
previous one (no individual removal between reshuffles).  In the Map-based
draft (part_000) replacement is not wholesale: at a spawn tick at most two
entries are added and existing entries are kept whenever their travel
distance is within the transit distance, so entries survive past reshuffle
ticks (see the counterexample). -/
theorem C2_wholesale_replacement (cfg : Cfg) (rand : ℕ → ℚ) (w h : ℝ)
    (cols rows : ℤ) (s : FState) (H2 : Finset Key) (now : ℚ)
    (reduced : Bool) :
    (frameStep001 cfg rand w h cols rows s now reduced).2
      = (frameStep001 cfg rand w h cols rows { s with highlights := H2 }
          now reduced).2 ∧
    ((frameStep001 cfg rand w h cols rows s now reduced).2 = true →
      (frameStep001 cfg rand w h cols rows s now reduced).1.highlights
        = (frameStep001 cfg rand w h cols rows { s with highlights := H2 }
            now reduced).1.highlights) ∧
    ((frameStep001 cfg rand w h cols rows s now reduced).2 = false →
      (frameStep001 cfg rand w h cols rows s now reduced).1.highlights
        = s.highlights) := by
  simp only [frameStep001]
  by_cases hskip : 0 < cfg.targetFps ∧
      s.acc + min 64 (now - s.last) / 1000 < 1 / cfg.targetFps
  · rw [if_pos hskip, if_pos hskip]
    exact ⟨rfl, fun hcon => absurd hcon Bool.false_ne_true, fun _ => rfl⟩
  · rw [if_neg hskip, if_neg hskip]
    refine ⟨rfl, ?_, ?_⟩
    · intro hfired
      have hf : cfg.hms < now - s.lastShuffle := of_decide_eq_true hfired
      have hdec : decide (cfg.hms < now - s.lastShuffle) = true :=
        decide_eq_true hf
      simp [hdec]
    · intro hfired
      have hf : ¬ cfg.hms < now - s.lastShuffle := of_decide_eq_false hfired
      have hdec : decide (cfg.hms < now - s.lastShuffle) = false :=
        decide_eq_false hf
      simp [hdec]

/-- Witness for C2 at a concrete frame input whose reshuffle is not due:
both runs agree on the fired flag and the highlight set is untouched. -/
theorem C2_wholesale_replacement_witness :
    (frameStep001 ⟨20, 24, 10, 6, 10000, 0, 1⟩ (fun _ => 0) 800 600 29 26
        ⟨0, 0, 0, 0, ∅⟩ 16 false).2
      = (frameStep001 ⟨20, 24, 10, 6, 10000, 0, 1⟩ (fun _ => 0) 800 600 29 26
          ⟨0, 0, 0, 0, {((1 : ℤ), (1 : ℤ))}⟩ 16 false).2 ∧
    (frameStep001 ⟨20, 24, 10, 6, 10000, 0, 1⟩ (fun _ => 0) 800 600 29 26
        ⟨0, 0, 0, 0, ∅⟩ 16 false).1.highlights = (∅ : Finset Key) := by
  have h := C2_wholesale_replacement ⟨20, 24, 10, 6, 10000, 0, 1⟩ (fun _ => 0)
    800 600 29 26 ⟨0, 0, 0, 0, ∅⟩ {((1 : ℤ), (1 : ℤ))} 16 false
  refine ⟨h.1, h.2.2 ?_⟩
  simp only [frameStep001]
  rw [if_neg (by norm_num)]
  exact decide_eq_false (by norm_num)

/-- C6 counterexample: a frame skipped by the frame-rate gate does not run
the reshuffle even when it is due.  With `targetFps = 30`, a 10 ms gap and
a reshuffle overdue by 10 seconds, the frame (executed with the
reduced-motion signal true) fires no reshuffle. -/
theorem C6_gate_skip_counterexample :
    (10000 : ℚ) < 20000 - 0 ∧
    (frameStep001 ⟨20, 24, 10, 6, 10000, 30, 1⟩ (fun _ => 0) 800 600 29 26
      ⟨19990, 0, 0, 0, ∅⟩ 20000 true).2 = false := by
  refine ⟨by norm_num, ?_⟩
  simp only [frameStep001]
  rw [if_pos]
  constructor
  · norm_num
  · show (0 : ℚ) + min 64 (20000 - 19990) / 1000 < 1 / 30
    rw [show (20000 : ℚ) - 19990 = 10 by norm_num,
      min_eq_right (by norm_num : (10 : ℚ) ≤ 64)]
    norm_num

/-- C6 amended: for every frame executed with the reduced-motion signal
true, the scroll offset after the frame equals the scroll offset before it
(in both the gate-skip branch and the rendering branch); the time-gated
reshuffle fires exactly when `now - lastShuffle > highlightEveryMs` on every
frame that passes the frame-rate gate (hence on every frame when
`targetFps = 0`, the default), while a frame skipped by the gate defers the
reshuffle check. -/
theorem C6_reduced_motion (cfg : Cfg) (rand : ℕ → ℚ) (w h : ℝ)
    (cols rows : ℤ) (s : FState) (now : ℚ)
    (hoff0 : 0 ≤ s.off) (hoff1 : s.off < cfg.ds + cfg.gp) :
    (frameStep001 cfg rand w h cols rows s now true).1.off = s.off ∧
    ((0 < cfg.targetFps ∧
        s.acc + min 64 (now - s.last) / 1000 < 1 / cfg.targetFps) →
      (frameStep001 cfg rand w h cols rows s now true).2 = false) ∧
    (¬ (0 < cfg.targetFps ∧
        s.acc + min 64 (now - s.last) / 1000 < 1 / cfg.targetFps) →
      ((frameStep001 cfg rand w h cols rows s now true).2 = true ↔
        cfg.hms < now - s.lastShuffle)) := by
  simp only [frameStep001]
  by_cases hskip : 0 < cfg.targetFps ∧
      s.acc + min 64 (now - s.last) / 1000 < 1 / cfg.targetFps
  · rw [if_pos hskip]
    exact ⟨rfl, fun _ => rfl, fun hcon => absurd hskip hcon⟩
  · rw [if_neg hskip]
    refine ⟨?_, fun hcon => absurd hcon hskip, fun _ => ?_⟩
    · show jsMod (s.off + (if (true : Bool) then (0 : ℚ) else cfg.speed) * _)
        (cfg.ds + cfg.gp) = s.off
      rw [if_pos rfl, zero_mul, add_zero]
      exact jsMod_eq_self s.off (cfg.ds + cfg.gp) hoff0 hoff1
    · show decide (cfg.hms < now - s.lastShuffle) = true ↔
        cfg.hms < now - s.lastShuffle
      exact decide_eq_true_iff

/-- Witness for C6: an uncapped reduced-motion frame with a due reshuffle
keeps the offset and fires the reshuffle. -/
theorem C6_reduced_motion_witness :
    (frameStep001 ⟨20, 24, 10, 6, 10000, 0, 1⟩ (fun _ => 0) 800 600 29 26
      ⟨19990, 0, 7, 0, ∅⟩ 20000 true).1.off = 7 ∧
    ((frameStep001 ⟨20, 24, 10, 6, 10000, 0, 1⟩ (fun _ => 0) 800 600 29 26
      ⟨19990, 0, 7, 0, ∅⟩ 20000 true).2 = true ↔
      (10000 : ℚ) < 20000 - 0) := by
  have h := C6_reduced_motion ⟨20, 24, 10, 6, 10000, 0, 1⟩ (fun _ => 0)
    800 600 29 26 ⟨19990, 0, 7, 0, ∅⟩ 20000 (by norm_num) (by norm_num)
  exact ⟨h.1, h.2.2 (by norm_num)⟩

/-- C1 (code bug in part_001): coverage completeness fails.  At the default
configuration, direction NE_SW, viewport 800x600 and scroll offset 0 (a
legal offset, `0 ≤ 0 < spacing`), the viewport corner (800, 600) lies in no
diamond of the iterated index window: the window is centered on the lattice
origin, which the drawing math places at the top-left screen corner, while
the coverage count is sized for the whole viewport span, so the drawn tiles
reach only about `u = 704` along the rotated axis, far short of the corner
at `u = 700 * sqrt 2 = 989.9`.  This contradicts the stated intent of the
source (fills the viewport including corners). -/
theorem C1_corner_uncovered :
    (0 : ℝ) ≤ 0 ∧ (0 : ℝ) < spacingOf 20 24 ∧
    ¬ covered001 20 24 800 600 0 1 800 600 := by
  refine ⟨le_rfl, by norm_num [spacingOf], ?_⟩
  rintro ⟨r, c, hr1, hr2, hc1, hc2, hd⟩
  have hs2 : Real.sqrt 2 ^ 2 = 2 := sqrt2_sq
  have hs2nn : (0 : ℝ) ≤ Real.sqrt 2 := Real.sqrt_nonneg 2
  have h1414 : (1.414 : ℝ) < Real.sqrt 2 := sqrt2_gt
  have h1415 : Real.sqrt 2 < (1.415 : ℝ) := sqrt2_lt
  have hcols : cols001 20 24 800 600 ≤ 29 := by
    unfold cols001
    rw [uExtent_eq 800 600 (by norm_num) (by norm_num), cosT_eq, sinT_eq]
    have hpad : uPadOf 20 24 = 78 := by
      unfold uPadOf spacingOf halfOf; norm_num
    have hnum : (800 : ℝ) * (Real.sqrt 2 / 2) + 600 * (Real.sqrt 2 / 2)
        + 2 * uPadOf 20 24 = 700 * Real.sqrt 2 + 156 := by
      rw [hpad]; ring
    rw [hnum, show spacingOf (20 : ℝ) 24 = 44 from by unfold spacingOf; norm_num]
    have hceil : ⌈(700 * Real.sqrt 2 + 156) / (44 : ℝ)⌉ ≤ (27 : ℤ) := by
      rw [Int.ceil_le, div_le_iff₀ (by norm_num : (0 : ℝ) < 44)]
      push_cast
      nlinarith
    omega
  have hc15 : c ≤ 15 := by
    have h29 : ceilHalf (cols001 20 24 800 600) ≤ ceilHalf 29 := by
      unfold ceilHalf
      apply Int.ceil_mono
      have hq : ((cols001 20 24 800 600 : ℤ) : ℚ) ≤ 29 := by exact_mod_cast hcols
      linarith
    have h15 : ceilHalf 29 = 15 := by
      unfold ceilHalf
      rw [Int.ceil_eq_iff]; norm_num
    have hce := hc2
    unfold frameColEnd at hce
    omega
  have hstag0 : 0 ≤ staggerOf 20 24 r := by
    unfold staggerOf spacingOf; split <;> norm_num
  have hstag22 : staggerOf 20 24 r ≤ 22 := by
    unfold staggerOf spacingOf; split <;> norm_num
  have hshift : uShiftOf 1 r 0 = 0 := by
    unfold uShiftOf; split <;> ring
  have hU : uCenter 20 24 1 r c 0 ≤ 704 := by
    unfold uCenter
    rw [hshift, show spacingOf (20 : ℝ) 24 = 44 from by unfold spacingOf; norm_num]
    have hcr : (c : ℝ) ≤ 15 := by exact_mod_cast hc15
    nlinarith
  have hX : tileX 20 24 1 r c 0 = uCenter 20 24 1 r c 0 * (Real.sqrt 2 / 2)
      - vRowOf 20 24 r * (Real.sqrt 2 / 2) := by
    unfold tileX; rw [cosT_eq, sinT_eq]
  have hY : tileY 20 24 1 r c 0 = uCenter 20 24 1 r c 0 * (Real.sqrt 2 / 2)
      + vRowOf 20 24 r * (Real.sqrt 2 / 2) := by
    unfold tileY; rw [cosT_eq, sinT_eq]
  unfold inDiamond at hd
  rw [show halfOf (20 : ℝ) = 10 from by unfold halfOf; norm_num] at hd
  have key : 700 * Real.sqrt 2 - uCenter 20 24 1 r c 0
      = (800 - tileX 20 24 1 r c 0) * (Real.sqrt 2 / 2)
        + (600 - tileY 20 24 1 r c 0) * (Real.sqrt 2 / 2) := by
    rw [hX, hY]
    linear_combination (uCenter 20 24 1 r c 0 / 2) * hs2
  have habs1 : (800 : ℝ) - tileX 20 24 1 r c 0
      ≤ |800 - tileX 20 24 1 r c 0| := le_abs_self _
  have habs2 : (600 : ℝ) - tileY 20 24 1 r c 0
      ≤ |600 - tileY 20 24 1 r c 0| := le_abs_self _
  have habs1n : (0 : ℝ) ≤ |800 - tileX 20 24 1 r c 0| := abs_nonneg _
  have habs2n : (0 : ℝ) ≤ |600 - tileY 20 24 1 r c 0| := abs_nonneg _
  have hhalfnn : (0 : ℝ) ≤ Real.sqrt 2 / 2 := div_nonneg hs2nn (by norm_num)
  have hfinal : 700 * Real.sqrt 2 - uCenter 20 24 1 r c 0
      ≤ 5 * Real.sqrt 2 := by
    rw [key]
    nlinarith [mul_le_mul_of_nonneg_right habs1 hhalfnn,
      mul_le_mul_of_nonneg_right habs2 hhalfnn]
  nlinarith [hU, hfinal]

end DBG
